import Mathlib

/-!
Shallow embedding of the s3kv key-value store (src/s3kv/s3kv.py).

Strings are modelled as lists of characters (mirroring Python string
slicing such as s[5:-5]).  The backend bucket is an association list from
object names to stored objects (body plus tag set); the local cache
directory /tmp/s3kv_cache is an association list from logical keys to a
cached value together with its file modification time.  JSON
serialization mechanics are out of scope of the specification, so the
stored body is the JSON value itself.  Backend or filesystem faults that
a claim depends on are injected explicitly as parameters.
-/

/-- First-some choice on options, used to express later-entry-wins lookups. -/
def ofirst {α : Type} : Option α → Option α → Option α
  | some v, _ => some v
  | none, b => b

/-- Lookup in an association list, first binding wins. -/
def alookup {κ α : Type} [DecidableEq κ] (k : κ) : List (κ × α) → Option α
  | [] => none
  | e :: rest => if e.1 = k then some e.2 else alookup k rest

/-- In-place update of an association list: an existing binding keeps its
position, a new binding is appended (Python dict assignment, and object
replacement in the backend bucket). -/
def aupdate {κ α : Type} [DecidableEq κ] (k : κ) (v : α) : List (κ × α) → List (κ × α)
  | [] => [(k, v)]
  | e :: rest => if e.1 = k then (k, v) :: rest else e :: aupdate k v rest

/-- Removal of every binding of a key from an association list. -/
def aremove {κ α : Type} [DecidableEq κ] (k : κ) : List (κ × α) → List (κ × α)
  | [] => []
  | e :: rest => if e.1 = k then aremove k rest else e :: aremove k rest

/-- Last-binding-wins lookup, matching a Python dict built by inserting the
pairs of a list in order. -/
def alookupLast {κ α : Type} [DecidableEq κ] (k : κ) : List (κ × α) → Option α
  | [] => none
  | e :: rest => ofirst (alookupLast k rest) (if e.1 = k then some e.2 else none)

/-- Dict built from a list of pairs, later pairs overwriting earlier ones. -/
def dict_of {κ α : Type} [DecidableEq κ] (l : List (κ × α)) : List (κ × α) :=
  l.foldl (fun acc e => aupdate e.1 e.2 acc) []

/-- Python str.startswith on character lists. -/
def pfx : List Char → List Char → Bool
  | [], _ => true
  | _ :: _, [] => false
  | a :: as, b :: bs => if a = b then pfx as bs else false

/-- Python str.endswith on character lists. -/
def sfx (e l : List Char) : Bool := pfx e.reverse l.reverse

/-- Drop the last n characters. -/
def dropRightN (n : Nat) (l : List Char) : List Char := (l.reverse.drop n).reverse

/-- The Python slice s[5:-5] used to turn an object name back into a key. -/
def strip5 (l : List Char) : List Char := dropRightN 5 (l.drop 5)

/-- JSON values, the image of Python values under json.dumps/json.loads.
Objects are insertion-ordered lists of fields, as Python dicts are. -/
inductive Json : Type where
  | null : Json
  | bool : Bool → Json
  | num : Int → Json
  | str : String → Json
  | arr : List Json → Json
  | obj : List (String × Json) → Json

/-- Python truthiness of a JSON value (the `if source_value:` test). -/
def truthy : Json → Bool
  | Json.null => false
  | Json.bool b => b
  | Json.num n => n != 0
  | Json.str s => s != ""
  | Json.arr xs => !xs.isEmpty
  | Json.obj fs => !fs.isEmpty

/-- Whether a JSON value is an object (a Python dict, accepted by dict.update). -/
def isObjB : Json → Bool
  | Json.obj _ => true
  | _ => false

/-- A stored backend object: its body and its tag set. -/
structure SObj where
  body : Json
  tagset : List (String × String)

/-- The world the store acts on: the backend bucket contents and the local
cache directory (value and file modification time per key). -/
structure World where
  s3 : List (List Char × SObj)
  cache : List (List Char × Json × Nat)

/-- The fixed namespace literal "s3kv/". -/
def ns5 : List Char := "s3kv/".toList

/-- The serialization extension literal ".json". -/
def jsonExt : List Char := ".json".toList

/-- Errors surfaced by the backend client or the local filesystem. -/
inductive Err where
  | noSuchKey : Err
  | cacheWriteError : Err
deriving DecidableEq, Repr

/-- A head_object failure other than not-found (authorization, network). -/
inductive HeadFault where
  | authError : HeadFault
  | networkError : HeadFault
deriving DecidableEq, Repr

namespace S3KV

/-- f"s3kv/\x7bkey\x7d.json" -/
def _get_object_key (key : List Char) : List Char := ns5 ++ key ++ jsonExt

/-- list_objects_v2(Bucket=..., Prefix=p): the first response page, here the
object names of the whole bucket filtered by the name prefix. -/
def list_objects_v2 (p : List Char) (w : World) : List (List Char) :=
  (w.s3.filter (fun e => pfx p e.1)).map Prod.fst

/-- S3KV.add: put_object of the serialized value (replacing any previous
object, tags reset), then an unconditional cache-file write.  The cache
write has no try/except in the source: cacheOk injects a filesystem fault
there, and the exception propagates after the backend put already
happened, so the error carries the world with the object written. -/
def add (cacheOk : Bool) (key : List Char) (value : Json) (now : Nat) (w : World) :
    Except (Err × World) World :=
  let w1 : World := { w with s3 := aupdate ( _get_object_key key) ⟨value, []⟩ w.s3 }
  if cacheOk then Except.ok { w1 with cache := aupdate key (value, now) w1.cache }
  else Except.error (Err.cacheWriteError, w1)

/-- S3KV.get: read the object from the backend; NoSuchKey is normalized to
the caller-supplied default. -/
def get (key : List Char) (dflt : Json) (w : World) : Json :=
  match alookup ( _get_object_key key) w.s3 with
  | some o => o.body
  | none => dflt

/-- S3KV.clear_old_cache: remove every cache file whose age exceeds
max_days days (86400 seconds per day). -/
def clear_old_cache (max_days : Nat) (now : Nat) (w : World) : World :=
  { w with cache := w.cache.filter (fun e => decide (now - e.2.2 ≤ max_days * 86400)) }

/-- S3KV.get_from_cache: sweep old cache entries (default 7 days), then
return the cached value if its file exists. -/
def get_from_cache (key : List Char) (now : Nat) (w : World) : World × Option Json :=
  let w1 := clear_old_cache 7 now w
  (w1, (alookup key w1.cache).map Prod.fst)

/-- S3KV.delete: delete_object on the backend (idempotent), then remove the
cache file if it exists. -/
def delete (key : List Char) (w : World) : World :=
  let w1 : World := { w with s3 := aremove ( _get_object_key key) w.s3 }
  { w1 with cache := aremove key w1.cache }

/-- S3KV.list_keys: list_objects_v2 with Prefix="" over the whole bucket,
keep names ending in ".json", and slice each name with [5:-5]. -/
def list_keys (w : World) : List (List Char) :=
  ((list_objects_v2 [] w).filter (fun okey => sfx jsonExt okey)).map strip5

/-- S3KV.key_exists: head_object inside try/except Exception; any failure,
including authorization or network faults and not-found, yields False. -/
def key_exists (fault : Option HeadFault) (key : List Char) (w : World) : Bool :=
  match fault with
  | some _ => false
  | none => (alookup ( _get_object_key key) w.s3).isSome

/-- S3KV.copy_key: get_object on the source (NoSuchKey propagates, carrying
the untouched world), put_object on the destination, then duplicate the
source cache file under the destination if it exists (shutil.copy sets a
fresh modification time). -/
def copy_key (source_key destination_key : List Char) (now : Nat) (w : World) :
    Except (Err × World) World :=
  match alookup ( _get_object_key source_key) w.s3 with
  | none => Except.error (Err.noSuchKey, w)
  | some o =>
    let w1 : World :=
      { w with s3 := aupdate ( _get_object_key destination_key) ⟨o.body, []⟩ w.s3 }
    match alookup source_key w1.cache with
    | some e => Except.ok { w1 with cache := aupdate destination_key (e.1, now) w1.cache }
    | none => Except.ok w1

/-- The source loop of S3KV.merge_keys: for each source key, get with
default None; a falsy result is skipped, a truthy dict is merged into the
accumulator with dict.update, and a truthy non-dict raises (none). -/
def merge_loop (w : World) : List (List Char) → List (String × Json) →
    Option (List (String × Json))
  | [], acc => some acc
  | k :: rest, acc =>
    let sv := get k Json.null w
    if truthy sv then
      match sv with
      | Json.obj fs => merge_loop w rest (fs.foldl (fun acc2 e => aupdate e.1 e.2 acc2) acc)
      | _ => none
    else merge_loop w rest acc

/-- S3KV.merge_keys: accumulate the source values into an initially empty
dict, put_object the accumulator under the destination, then write the
destination cache file unconditionally. -/
def merge_keys (source_keys : List (List Char)) (destination_key : List Char)
    (now : Nat) (w : World) : Option World :=
  match merge_loop w source_keys [] with
  | none => none
  | some dv =>
    let w1 : World :=
      { w with s3 := aupdate ( _get_object_key destination_key) ⟨Json.obj dv, []⟩ w.s3 }
    some { w1 with cache := aupdate destination_key (Json.obj dv, now) w1.cache }

/-- S3KV.tag_key: put_object_tagging replaces the entire tag set of the
object; the backend rejects a missing object. -/
def tag_key (key : List Char) (tags : List (String × String)) (w : World) :
    Except Err World :=
  match alookup ( _get_object_key key) w.s3 with
  | none => Except.error Err.noSuchKey
  | some o =>
    Except.ok { w with s3 := aupdate ( _get_object_key key) ⟨o.body, tags⟩ w.s3 }

/-- S3KV.get_tags: get_object_tagging, building a dict from the TagSet list. -/
def get_tags (s3_object_key : List Char) (w : World) : List (String × String) :=
  match alookup s3_object_key w.s3 with
  | some o => dict_of o.tagset
  | none => []

/-- S3KV.find_keys_by_tag_value: list the first page under "s3kv/", fetch
each object's tags, keep objects whose tag dict is nonempty, contains the
tag key, and maps it to the tag value, and slice each object name with
[5:-5]. -/
def find_keys_by_tag_value (tk tv : String) (w : World) : List (List Char) :=
  ((list_objects_v2 ns5 w).filter (fun okey =>
      let tags := get_tags okey w
      !tags.isEmpty && (alookup tk tags).isSome && decide (alookup tk tags = some tv))).map
    strip5

end S3KV

/-- S3KV.list_keys_with_prefix: list_objects_v2 with the caller's prefix
passed through verbatim as the backend object-name prefix, keep names
ending in ".json", and slice each name with [5:-5]. -/
def list_keys_with_prefix (p : List Char) (w : World) : List (List Char) :=
  ((S3KV.list_objects_v2 p w).filter (fun okey => sfx jsonExt okey)).map strip5

/-- The constructor state of an S3KV instance: the bucket name and the
enable_local_cache flag, both stored by __init__. -/
structure Cfg where
  bucket_name : List Char
  enable_local_cache : Bool

/-- One public operation of the store, with its injected fault and clock
parameters where the underlying method has them. -/
inductive Op where
  | opAdd : Bool → List Char → Json → Nat → Op
  | opGet : List Char → Json → Op
  | opGetFromCache : List Char → Nat → Op
  | opDelete : List Char → Op
  | opListKeys : Op
  | opListKeysP : List Char → Op
  | opKeyExists : Option HeadFault → List Char → Op
  | opCopyKey : List Char → List Char → Nat → Op
  | opMergeKeys : List (List Char) → List Char → Nat → Op
  | opTagKey : List Char → List (String × String) → Op
  | opGetTags : List Char → Op
  | opFindKeys : String → String → Op

/-- The observable result of one operation. -/
inductive Ret where
  | unit : Ret
  | val : Json → Ret
  | opt : Option Json → Ret
  | keys : List (List Char) → Ret
  | flag : Bool → Ret
  | tagd : List (String × String) → Ret
  | failed : Err → Ret

/-- Dispatch one operation against the world, exactly as the corresponding
method does; a raised error leaves the world as it was at the raise. -/
def runOp (cfg : Cfg) (w : World) : Op → World × Ret
  | Op.opAdd cacheOk k v now =>
    match S3KV.add cacheOk k v now w with
    | Except.ok w1 => (w1, Ret.unit)
    | Except.error e => (e.2, Ret.failed e.1)
  | Op.opGet k d => (w, Ret.val (S3KV.get k d w))
  | Op.opGetFromCache k now =>
    let r := S3KV.get_from_cache k now w
    (r.1, Ret.opt r.2)
  | Op.opDelete k => (S3KV.delete k w, Ret.unit)
  | Op.opListKeys => (w, Ret.keys (S3KV.list_keys w))
  | Op.opListKeysP p => (w, Ret.keys ( list_keys_with_prefix p w))
  | Op.opKeyExists f k => (w, Ret.flag (S3KV.key_exists f k w))
  | Op.opCopyKey s d now =>
    match S3KV.copy_key s d now w with
    | Except.ok w1 => (w1, Ret.unit)
    | Except.error e => (e.2, Ret.failed e.1)
  | Op.opMergeKeys srcs d now =>
    match S3KV.merge_keys srcs d now w with
    | some w1 => (w1, Ret.unit)
    | none => (w, Ret.failed Err.noSuchKey)
  | Op.opTagKey k ts =>
    match S3KV.tag_key k ts w with
    | Except.ok w1 => (w1, Ret.unit)
    | Except.error e => (w, Ret.failed e)
  | Op.opGetTags okey => (w, Ret.tagd (S3KV.get_tags okey w))
  | Op.opFindKeys n v => (w, Ret.keys (S3KV.find_keys_by_tag_value n v w))

/-- Run a sequence of operations, collecting the observable results. -/
def run (cfg : Cfg) (w : World) : List Op → World × List Ret
  | [] => (w, [])
  | op :: rest =>
    let r := runOp cfg w op
    let rr := run cfg r.1 rest
    (rr.1, r.2 :: rr.2)

/-- An empty stored object used by the concrete scenarios. -/
def exObj : SObj := ⟨Json.obj [], []⟩

/-- The empty world: empty bucket, empty cache directory. -/
def emptyWorld : World := ⟨[], []⟩

/-- Bucket holding exactly the keys "a.1", "a.2", "b.1". -/
def listWorld : World :=
  ⟨[(S3KV._get_object_key "a.1".toList, exObj),
    (S3KV._get_object_key "a.2".toList, exObj),
    (S3KV._get_object_key "b.1".toList, exObj)], []⟩

/-- Bucket holding the key "k" plus an object outside the s3kv/ namespace. -/
def outsideWorld : World :=
  ⟨[(S3KV._get_object_key "k".toList, exObj),
    ("other/x.json".toList, exObj)], []⟩

/-- Bucket after add('a', obj x:1) and add('b', obj x:2 y:3). -/
def mergeWorld : World :=
  ⟨[(S3KV._get_object_key "a".toList, ⟨Json.obj [("x", Json.num 1)], []⟩),
    (S3KV._get_object_key "b".toList,
      ⟨Json.obj [("x", Json.num 2), ("y", Json.num 3)], []⟩)], []⟩

/-- Bucket after add('t1', empty obj). -/
def tagWorld : World :=
  ⟨[(S3KV._get_object_key "t1".toList, exObj)], []⟩

/-- The top-level field a destination key receives from a list of merge
sources: the value from the last truthy source object that defines it
(later sources overwrite earlier ones; absent or falsy sources contribute
nothing). -/
def mergedField (w : World) (f : String) : List (List Char) → Option Json
  | [] => none
  | k :: rest =>
    ofirst (mergedField w f rest)
      (if truthy (S3KV.get k Json.null w) then
        match S3KV.get k Json.null w with
        | Json.obj fs => alookupLast f fs
        | _ => none
      else none)

/-! ### Lemmas about the association-list and string primitives -/

theorem ofirst_none_right {α : Type} (a : Option α) : ofirst a none = a := by
  cases a <;> rfl

theorem ofirst_assoc {α : Type} (a b c : Option α) :
    ofirst (ofirst a b) c = ofirst a (ofirst b c) := by
  cases a <;> cases b <;> rfl

theorem alookup_aupdate {κ α : Type} [DecidableEq κ] (x k : κ) (v : α) (l : List (κ × α)) :
    alookup x (aupdate k v l) = if k = x then some v else alookup x l := by
  induction l with
  | nil => simp [aupdate, alookup]
  | cons e rest ih =>
    obtain ⟨a, b⟩ := e
    by_cases hak : a = k
    · subst hak
      by_cases hax : a = x <;> simp [aupdate, alookup, hax]
    · have h1 : aupdate k v ((a, b) :: rest) = (a, b) :: aupdate k v rest := by
        simp [aupdate, hak]
      rw [h1]
      by_cases hax : a = x
      · subst hax
        have hka : ¬(k = a) := fun hE => hak hE.symm
        simp [alookup, hka]
      · simp [alookup, hax, ih]

theorem alookup_aupdate_self {κ α : Type} [DecidableEq κ] (k : κ) (v : α)
    (l : List (κ × α)) : alookup k (aupdate k v l) = some v := by
  simp [alookup_aupdate]

theorem alookup_aremove_self {κ α : Type} [DecidableEq κ] (k : κ) (l : List (κ × α)) :
    alookup k (aremove k l) = none := by
  induction l with
  | nil => rfl
  | cons e rest ih =>
    obtain ⟨a, b⟩ := e
    by_cases h : a = k <;> simp [aremove, alookup, h, ih]

theorem alookup_filter_none {κ α : Type} [DecidableEq κ] (k : κ) (p : κ × α → Bool)
    (l : List (κ × α)) (h : alookup k l = none) : alookup k (l.filter p) = none := by
  induction l with
  | nil => rfl
  | cons e rest ih =>
    obtain ⟨a, b⟩ := e
    by_cases hak : a = k
    · simp [alookup, hak] at h
    · have h2 : alookup k rest = none := by simpa [alookup, hak] using h
      cases hp : p (a, b) <;> simp [List.filter_cons, hp, alookup, hak, ih h2]

theorem alookup_mem {κ α : Type} [DecidableEq κ] {k : κ} {x : α} {l : List (κ × α)}
    (h : alookup k l = some x) : (k, x) ∈ l := by
  induction l with
  | nil => simp [alookup] at h
  | cons e rest ih =>
    obtain ⟨a, b⟩ := e
    by_cases hak : a = k
    · subst hak
      simp [alookup] at h
      subst h
      exact List.mem_cons_self _ _
    · have h2 : alookup k rest = some x := by simpa [alookup, hak] using h
      exact List.mem_cons_of_mem _ (ih h2)

theorem alookup_of_mem_nodup {κ α : Type} [DecidableEq κ] {l : List (κ × α)} {e : κ × α}
    (hd : (l.map Prod.fst).Nodup) (hm : e ∈ l) : alookup e.1 l = some e.2 := by
  induction l with
  | nil => simp at hm
  | cons f rest ih =>
    obtain ⟨a, b⟩ := f
    rw [List.map_cons, List.nodup_cons] at hd
    rcases List.mem_cons.mp hm with h1 | h1
    · subst h1
      simp [alookup]
    · have hne : ¬(a = e.1) := by
        intro hE
        apply hd.1
        rw [hE]
        exact List.mem_map.mpr ⟨e, h1, rfl⟩
      simp [alookup, hne, ih hd.2 h1]

theorem mem_aupdate {κ α : Type} [DecidableEq κ] {e : κ × α} {k : κ} {v : α}
    {l : List (κ × α)} (h : e ∈ aupdate k v l) : e = (k, v) ∨ e ∈ l := by
  induction l with
  | nil =>
    simp [aupdate] at h
    exact Or.inl h
  | cons f rest ih =>
    obtain ⟨a, b⟩ := f
    by_cases hak : a = k
    · rw [show aupdate k v ((a, b) :: rest) = (k, v) :: rest by simp [aupdate, hak]] at h
      rcases List.mem_cons.mp h with h1 | h1
      · exact Or.inl h1
      · exact Or.inr (List.mem_cons_of_mem _ h1)
    · rw [show aupdate k v ((a, b) :: rest) = (a, b) :: aupdate k v rest by
        simp [aupdate, hak]] at h
      rcases List.mem_cons.mp h with h1 | h1
      · exact Or.inr (by rw [h1]; exact List.mem_cons_self _ _)
      · rcases ih h1 with h2 | h2
        · exact Or.inl h2
        · exact Or.inr (List.mem_cons_of_mem _ h2)

theorem aupdate_map_fst {κ α : Type} [DecidableEq κ] {k : κ} {x : α} (v : α)
    {l : List (κ × α)} (h : alookup k l = some x) :
    (aupdate k v l).map Prod.fst = l.map Prod.fst := by
  induction l with
  | nil => simp [alookup] at h
  | cons f rest ih =>
    obtain ⟨a, b⟩ := f
    by_cases hak : a = k
    · simp [aupdate, hak]
    · have h2 : alookup k rest = some x := by simpa [alookup, hak] using h
      simp [aupdate, hak, ih h2]

theorem alookup_foldl {κ α : Type} [DecidableEq κ] (x : κ) (fs : List (κ × α))
    (acc : List (κ × α)) :
    alookup x (fs.foldl (fun a e => aupdate e.1 e.2 a) acc) =
      ofirst (alookupLast x fs) (alookup x acc) := by
  induction fs generalizing acc with
  | nil => rfl
  | cons e fs ih =>
    obtain ⟨a, b⟩ := e
    rw [List.foldl_cons, ih, alookupLast, ofirst_assoc]
    congr 1
    rw [alookup_aupdate]
    by_cases hax : a = x <;> simp [hax, ofirst]

theorem alookup_dict_of {κ α : Type} [DecidableEq κ] (x : κ) (l : List (κ × α)) :
    alookup x (dict_of l) = alookupLast x l := by
  rw [dict_of, alookup_foldl]
  exact ofirst_none_right _

theorem pfx_append (p r : List Char) : pfx p (p ++ r) = true := by
  induction p with
  | nil => rfl
  | cons a as ih => simp [pfx, ih]

theorem strip5_object_key (k : List Char) : strip5 (S3KV._get_object_key k) = k := by
  have h1 : S3KV._get_object_key k = ns5 ++ (k ++ jsonExt) := by
    rw [S3KV._get_object_key, List.append_assoc]
  have h2 : (ns5 ++ (k ++ jsonExt)).drop 5 = k ++ jsonExt := by
    have h5 : ns5.length = 5 := rfl
    rw [← h5, List.drop_left]
  rw [h1, strip5, h2, dropRightN, List.reverse_append]
  have h3 : jsonExt.reverse.length = 5 := rfl
  rw [← h3, List.drop_left, List.reverse_reverse]

theorem pfx_object_key (k : List Char) : pfx ns5 (S3KV._get_object_key k) = true := by
  rw [show S3KV._get_object_key k = ns5 ++ (k ++ jsonExt) by
    rw [S3KV._get_object_key, List.append_assoc]]
  exact pfx_append _ _

theorem mem_map_filter_map_filter {β : Type} [DecidableEq β] (g : List Char → β)
    (q : List Char → Bool) (r : (List Char × SObj) → Bool)
    (l : List (List Char × SObj)) (x : β) :
    x ∈ (((l.filter r).map Prod.fst).filter q).map g ↔
      ∃ e, e ∈ l ∧ r e = true ∧ q e.1 = true ∧ g e.1 = x := by
  simp only [List.mem_map, List.mem_filter]
  constructor
  · rintro ⟨okey, ⟨⟨e, ⟨he, hre⟩, heq⟩, hq⟩, hg⟩
    subst heq
    exact ⟨e, he, hre, hq, hg⟩
  · rintro ⟨e, he, hre, hq, hg⟩
    exact ⟨e.1, ⟨⟨e, ⟨he, hre⟩, rfl⟩, hq⟩, hg⟩

theorem merge_loop_spec (w : World) : ∀ ks : List (List Char),
    ks.all (fun k => !truthy (S3KV.get k Json.null w)
      || isObjB (S3KV.get k Json.null w)) = true →
    ∀ acc, ∃ res, S3KV.merge_loop w ks acc = some res ∧
      ∀ f, alookup f res = ofirst (mergedField w f ks) (alookup f acc) := by
  intro ks
  induction ks with
  | nil =>
    intro _ acc
    exact ⟨acc, rfl, fun f => rfl⟩
  | cons k rest ih =>
    intro h acc
    rw [List.all_cons, Bool.and_eq_true] at h
    obtain ⟨h1, h2⟩ := h
    cases htr : truthy (S3KV.get k Json.null w) with
    | false =>
      obtain ⟨res, hres, hf⟩ := ih h2 acc
      refine ⟨res, ?_, ?_⟩
      · simp only [S3KV.merge_loop]
        simp [htr, hres]
      · intro f
        rw [hf f]
        simp only [mergedField]
        simp [htr, ofirst_none_right]
    | true =>
      rw [htr] at h1
      simp only [Bool.not_true, Bool.false_or] at h1
      obtain ⟨fs, hg⟩ : ∃ fs, S3KV.get k Json.null w = Json.obj fs := by
        cases hgc : S3KV.get k Json.null w <;> rw [hgc] at h1 <;>
          simp [isObjB] at h1
        exact ⟨_, rfl⟩
      obtain ⟨res, hres, hf⟩ := ih h2 (fs.foldl (fun acc2 e => aupdate e.1 e.2 acc2) acc)
      refine ⟨res, ?_, ?_⟩
      · simp only [S3KV.merge_loop, hg]
        rw [hg] at htr
        simp [htr, hres]
      · intro f
        rw [hf f, alookup_foldl]
        simp only [mergedField, hg]
        rw [hg] at htr
        simp only [htr, if_true]
        rw [ofirst_assoc]

theorem runOp_cfg_irrelevant (c1 c2 : Cfg) (w : World) (op : Op) :
    runOp c1 w op = runOp c2 w op := by
  cases op <;> rfl

theorem run_cfg_irrelevant (c1 c2 : Cfg) (w : World) (ops : List Op) :
    run c1 w ops = run c2 w ops := by
  induction ops generalizing w with
  | nil => rfl
  | cons op rest ih =>
    simp only [run, runOp_cfg_irrelevant c1 c2, ih]

/-! ### Claim theorems -/

/-- C1: add(k, v) followed by get(k, default) returns v exactly, for every
key, JSON value, default, clock value, and initial world: the backend
write stores the value and get reads the same value back unchanged,
regardless of the default supplied. -/
theorem add_get_roundtrip (k : List Char) (v d : Json) (now : Nat) (w : World) :
    ∃ w1, S3KV.add true k v now w = Except.ok w1 ∧ S3KV.get k d w1 = v := by
  refine ⟨_, rfl, ?_⟩
  simp [S3KV.get, alookup_aupdate_self]

/-- C3 (code bug): the cache-file write in add has no exception handling in
the source, so when it fails after a successful backend write, add raises
and the failure escapes to the caller, even though the object was already
stored in the backend. -/
theorem add_cache_failure_propagates :
    S3KV.add false "k".toList (Json.num 1) 0 emptyWorld =
      Except.error (Err.cacheWriteError,
        ⟨[(S3KV._get_object_key "k".toList, ⟨Json.num 1, []⟩)], []⟩) := rfl

/-- C4 (code bug): list_keys lists the bucket with an empty prefix, so an
object stored outside the s3kv/ namespace, here "other/x.json", does
contribute an element, the mangled name "/x", alongside the real key "k". -/
theorem list_keys_outside_namespace :
    S3KV.list_keys outsideWorld = ["k".toList, "/x".toList] ∧
      pfx ns5 "other/x.json".toList = false := by
  exact ⟨by decide, by decide⟩

/-- C5: after delete(k), the backend object is gone, so get returns the
supplied default, and the cache entry is gone, so get_from_cache returns
absent, for every key, default, sweep clock, and initial world. -/
theorem delete_then_absent (k : List Char) (D : Json) (now : Nat) (w : World) :
    S3KV.get k D (S3KV.delete k w) = D ∧
      alookup (S3KV._get_object_key k) (S3KV.delete k w).s3 = none ∧
      (S3KV.get_from_cache k now (S3KV.delete k w)).2 = none := by
  refine ⟨?_, ?_, ?_⟩
  · simp [S3KV.get, S3KV.delete, alookup_aremove_self]
  · simp [S3KV.delete, alookup_aremove_self]
  · have h := alookup_filter_none k
      (fun e => decide (now - e.2.2 ≤ 7 * 86400)) (aremove k w.cache)
      (alookup_aremove_self k w.cache)
    show (alookup k ((aremove k w.cache).filter
        (fun e => decide (now - e.2.2 ≤ 7 * 86400)))).map Prod.fst = none
    rw [h]
    rfl

/-- C6: key_exists is true exactly when the metadata probe is fault-free
and the object is present; any fault, authorization or network included,
yields false; a never-created key and a created-then-deleted key yield
false; a currently existing key yields true. -/
theorem key_exists_spec :
    (∀ (f : Option HeadFault) (k : List Char) (w : World),
        S3KV.key_exists f k w = true ↔
          f = none ∧ (alookup (S3KV._get_object_key k) w.s3).isSome = true) ∧
      (∀ (f : Option HeadFault) (k : List Char), S3KV.key_exists f k emptyWorld = false) ∧
      (∀ (k : List Char) (w : World), S3KV.key_exists none k (S3KV.delete k w) = false) ∧
      (∀ (k : List Char) (v : Json) (now : Nat) (w : World),
        ∃ w1, S3KV.add true k v now w = Except.ok w1 ∧
          S3KV.key_exists none k w1 = true) := by
  refine ⟨?_, ?_, ?_, ?_⟩
  · intro f k w
    cases f <;> simp [S3KV.key_exists]
  · intro f k
    cases f <;> simp [S3KV.key_exists, emptyWorld, alookup]
  · intro k w
    simp [S3KV.key_exists, S3KV.delete, alookup_aremove_self]
  · intro k v now w
    refine ⟨_, rfl, ?_⟩
    simp [S3KV.key_exists, alookup_aupdate_self]

/-- C9: the enable_local_cache constructor flag is stored but never read:
every operation sequence produces identical observable results, backend
state, and cache state whether the flag is false or true, and add writes
the cache entry regardless of the flag. -/
theorem enable_local_cache_no_effect :
    (∀ (bn : List Char) (ops : List Op) (w : World),
        run ⟨bn, false⟩ w ops = run ⟨bn, true⟩ w ops) ∧
      (∀ (bn : List Char) (fl : Bool) (k : List Char) (v : Json) (now : Nat) (w : World),
        ((runOp ⟨bn, fl⟩ w (Op.opAdd true k v now)).1).cache = aupdate k (v, now) w.cache) := by
  constructor
  · intro bn ops w
    exact run_cfg_irrelevant _ _ w ops
  · intro bn fl k v now w
    rfl

/-- C10: when the source object is absent, copy_key raises the backend
NoSuchKey error before any write: the error propagates and the world,
including the destination object and the destination cache entry, is left
exactly unchanged. -/
theorem copy_key_missing_source (s d : List Char) (now : Nat) (w : World)
    (h : alookup (S3KV._get_object_key s) w.s3 = none) :
    S3KV.copy_key s d now w = Except.error (Err.noSuchKey, w) := by
  simp [S3KV.copy_key, h]

/-- Witness for C10: on the empty world the source "s" is absent, and
copy_key raises NoSuchKey leaving the world unchanged. -/
theorem copy_key_missing_source_witness :
    alookup (S3KV._get_object_key "s".toList) emptyWorld.s3 = none ∧
      S3KV.copy_key "s".toList "d".toList 0 emptyWorld =
        Except.error (Err.noSuchKey, emptyWorld) :=
  ⟨rfl, copy_key_missing_source "s".toList "d".toList 0 emptyWorld rfl⟩

theorem find_mem_iff (n v : String) (w : World) (x : List Char)
    (h2 : (w.s3.map Prod.fst).Nodup)
    (h3 : ∀ e, e ∈ w.s3 → ∃ k2, e.1 = S3KV._get_object_key k2) :
    x ∈ S3KV.find_keys_by_tag_value n v w ↔
      ∃ o : SObj, alookup (S3KV._get_object_key x) w.s3 = some o ∧
        alookupLast n o.tagset = some v := by
  have hunfold : S3KV.find_keys_by_tag_value n v w =
      (((w.s3.filter (fun e => pfx ns5 e.1)).map Prod.fst).filter
        (fun okey => !(S3KV.get_tags okey w).isEmpty &&
          (alookup n (S3KV.get_tags okey w)).isSome &&
          decide (alookup n (S3KV.get_tags okey w) = some v))).map strip5 := rfl
  rw [hunfold, mem_map_filter_map_filter]
  constructor
  · rintro ⟨e, he, hp, hq, hs⟩
    obtain ⟨k2, hk2⟩ := h3 e he
    rw [hk2, strip5_object_key] at hs
    subst hs
    have hlook : alookup e.1 w.s3 = some e.2 := alookup_of_mem_nodup h2 he
    rw [hk2] at hlook
    have hgt : S3KV.get_tags (S3KV._get_object_key k2) w = dict_of e.2.tagset := by
      simp [S3KV.get_tags, hlook]
    simp only [Bool.and_eq_true, decide_eq_true_eq] at hq
    rw [hk2] at hq
    rw [hgt, alookup_dict_of] at hq
    exact ⟨e.2, hlook, hq.2⟩
  · rintro ⟨o, ho, hT⟩
    have hgt : S3KV.get_tags (S3KV._get_object_key x) w = dict_of o.tagset := by
      simp [S3KV.get_tags, ho]
    have hsome : alookup n (S3KV.get_tags (S3KV._get_object_key x) w) = some v := by
      rw [hgt, alookup_dict_of, hT]
    have hne : (!(S3KV.get_tags (S3KV._get_object_key x) w).isEmpty) = true := by
      cases hdt : S3KV.get_tags (S3KV._get_object_key x) w with
      | nil => rw [hdt] at hsome; simp [alookup] at hsome
      | cons a l => simp [List.isEmpty]
    refine ⟨(S3KV._get_object_key x, o), alookup_mem ho, pfx_object_key x, ?_,
      strip5_object_key x⟩
    simp only [Bool.and_eq_true, decide_eq_true_eq]
    exact ⟨⟨hne, by rw [hsome]; rfl⟩, hsome⟩

/-- C2 counterexample: with exactly the keys "a.1", "a.2", "b.1" stored,
list_keys_with_prefix "a" returns the empty list, not the two keys
beginning with "a": the prefix is matched against full backend object
names, which all start with "s3kv/", not against logical key names. -/
theorem prefix_listing_counterexample :
    list_keys_with_prefix "a".toList listWorld = [] ∧
      ¬("a.1".toList ∈ list_keys_with_prefix "a".toList listWorld) ∧
      S3KV.list_keys listWorld = ["a.1".toList, "a.2".toList, "b.1".toList] :=
  ⟨by decide, by decide, by decide⟩

/-- C2 amended: list_keys_with_prefix matches the prefix against raw
backend object names, not logical key names: a key x is returned exactly
when some first-page bucket object has a name that starts with the given
prefix, ends in ".json", and slices to x under [5:-5]; with exactly the
keys "a.1", "a.2", "b.1" stored, the prefix "a" yields nothing while the
namespaced prefix "s3kv/a" yields exactly "a.1" and "a.2". -/
theorem prefix_listing_amended :
    (∀ (p x : List Char) (w : World),
        x ∈ list_keys_with_prefix p w ↔
          ∃ e, e ∈ w.s3 ∧ pfx p e.1 = true ∧ sfx jsonExt e.1 = true ∧ strip5 e.1 = x) ∧
      list_keys_with_prefix "a".toList listWorld = [] ∧
      list_keys_with_prefix "s3kv/a".toList listWorld = ["a.1".toList, "a.2".toList] := by
  refine ⟨?_, by decide, by decide⟩
  intro p x w
  exact mem_map_filter_map_filter strip5 (fun okey => sfx jsonExt okey)
    (fun e => pfx p e.1) w.s3 x

/-- C7: merge_keys writes to the destination the left-to-right shallow
union of the source values, skipping sources that resolve to absent or
falsy, with later sources overwriting overlapping top-level fields of
earlier ones, and writes the same accumulator to the destination's cache
entry; in particular merging 'a' (x:1) and 'b' (x:2, y:3) into 'c' makes
get('c', empty) return (x:2, y:3). -/
theorem merge_keys_shallow_union :
    (∀ (srcs : List (List Char)) (dest : List Char) (now : Nat) (w : World),
        srcs.all (fun k => !truthy (S3KV.get k Json.null w)
          || isObjB (S3KV.get k Json.null w)) = true →
        ∃ fs w1, S3KV.merge_keys srcs dest now w = some w1 ∧
          S3KV.get dest (Json.obj []) w1 = Json.obj fs ∧
          alookup dest w1.cache = some (Json.obj fs, now) ∧
          ∀ f, alookup f fs = mergedField w f srcs) ∧
      (∃ w1, S3KV.merge_keys ["a".toList, "b".toList] "c".toList 9 mergeWorld = some w1 ∧
        S3KV.get "c".toList (Json.obj []) w1 =
          Json.obj [("x", Json.num 2), ("y", Json.num 3)]) := by
  constructor
  · intro srcs dest now w h
    obtain ⟨dv, hdv, hf⟩ := merge_loop_spec w srcs h []
    refine ⟨dv, ⟨aupdate (S3KV._get_object_key dest) ⟨Json.obj dv, []⟩ w.s3,
      aupdate dest (Json.obj dv, now) w.cache⟩, ?_, ?_, ?_, ?_⟩
    · simp only [S3KV.merge_keys, hdv]
    · simp [S3KV.get, alookup_aupdate_self]
    · exact alookup_aupdate_self _ _ _
    · intro f
      rw [hf f]
      exact ofirst_none_right _
  · exact ⟨_, rfl, rfl⟩

/-- Witness for C7: the two concrete sources 'a' (x:1) and 'b' (x:2, y:3)
satisfy the objects-only hypothesis, and the theorem yields the merged
destination state. -/
theorem merge_keys_shallow_union_witness :
    (["a".toList, "b".toList].all (fun k => !truthy (S3KV.get k Json.null mergeWorld)
      || isObjB (S3KV.get k Json.null mergeWorld)) = true) ∧
      (∃ fs w1, S3KV.merge_keys ["a".toList, "b".toList] "c".toList 9 mergeWorld = some w1 ∧
        S3KV.get "c".toList (Json.obj []) w1 = Json.obj fs ∧
        alookup "c".toList w1.cache = some (Json.obj fs, 9) ∧
        ∀ f, alookup f fs = mergedField mergeWorld f ["a".toList, "b".toList]) :=
  ⟨by decide, merge_keys_shallow_union.1 ["a".toList, "b".toList] "c".toList 9 mergeWorld
    (by decide)⟩

/-- C8: tagging is full replacement and tag search is exact equality: for
an existing key k (in a well-formed bucket of s3kv-managed objects),
tag_key(k, T) replaces the object's entire tag set with T, and
find_keys_by_tag_value(n, v) includes k exactly when T maps n to v; in
particular after tag('t1', env:prod) the search (env, prod) includes 't1',
and after a subsequent tag('t1', env:dev) it no longer does. -/
theorem tag_search_spec :
    (∀ (k : List Char) (T : List (String × String)) (w : World) (o : SObj),
        alookup (S3KV._get_object_key k) w.s3 = some o →
        (w.s3.map Prod.fst).Nodup →
        (∀ e, e ∈ w.s3 → ∃ k2, e.1 = S3KV._get_object_key k2) →
        ∃ w1, S3KV.tag_key k T w = Except.ok w1 ∧
          alookup (S3KV._get_object_key k) w1.s3 = some ⟨o.body, T⟩ ∧
          ∀ n v, ((k ∈ S3KV.find_keys_by_tag_value n v w1) ↔ alookupLast n T = some v)) ∧
      (∃ wP wD, S3KV.tag_key "t1".toList [("env", "prod")] tagWorld = Except.ok wP ∧
        "t1".toList ∈ S3KV.find_keys_by_tag_value "env" "prod" wP ∧
        S3KV.tag_key "t1".toList [("env", "dev")] wP = Except.ok wD ∧
        ¬("t1".toList ∈ S3KV.find_keys_by_tag_value "env" "prod" wD)) := by
  constructor
  · intro k T w o h1 h2 h3
    refine ⟨{ w with s3 := aupdate (S3KV._get_object_key k) ⟨o.body, T⟩ w.s3 }, ?_, ?_, ?_⟩
    · simp [S3KV.tag_key, h1]
    · exact alookup_aupdate_self _ _ _
    · intro n v
      have h1' : alookup (S3KV._get_object_key k)
          (aupdate (S3KV._get_object_key k) (⟨o.body, T⟩ : SObj) w.s3) = some ⟨o.body, T⟩ :=
        alookup_aupdate_self _ _ _
      have h2' : ((aupdate (S3KV._get_object_key k) (⟨o.body, T⟩ : SObj) w.s3).map
          Prod.fst).Nodup := by
        rw [aupdate_map_fst _ h1]
        exact h2
      have h3' : ∀ e, e ∈ aupdate (S3KV._get_object_key k) (⟨o.body, T⟩ : SObj) w.s3 →
          ∃ k2, e.1 = S3KV._get_object_key k2 := by
        intro e he
        rcases mem_aupdate he with hE | hm
        · exact ⟨k, by rw [hE]⟩
        · exact h3 e hm
      rw [find_mem_iff n v _ k h2' h3']
      constructor
      · rintro ⟨o', ho', hT⟩
        rw [h1'] at ho'
        rw [← Option.some.inj ho'] at hT
        exact hT
      · intro hT
        exact ⟨⟨o.body, T⟩, h1', hT⟩
  · exact ⟨_, _, rfl, by decide, rfl, by decide⟩

/-- Witness for C8: the bucket holding only the object of key 't1'
satisfies all three hypotheses, and the theorem applies with tag set
env:prod. -/
theorem tag_search_spec_witness :
    (alookup (S3KV._get_object_key "t1".toList) tagWorld.s3 = some exObj) ∧
      ((tagWorld.s3.map Prod.fst).Nodup) ∧
      (∀ e, e ∈ tagWorld.s3 → ∃ k2, e.1 = S3KV._get_object_key k2) ∧
      (∃ w1, S3KV.tag_key "t1".toList [("env", "prod")] tagWorld = Except.ok w1 ∧
        alookup (S3KV._get_object_key "t1".toList) w1.s3 =
          some ⟨exObj.body, [("env", "prod")]⟩ ∧
        ∀ n v, (("t1".toList ∈ S3KV.find_keys_by_tag_value n v w1) ↔
          alookupLast n [("env", "prod")] = some v)) := by
  have h1 : alookup (S3KV._get_object_key "t1".toList) tagWorld.s3 = some exObj := rfl
  have h2 : (tagWorld.s3.map Prod.fst).Nodup := by decide
  have h3 : ∀ e, e ∈ tagWorld.s3 → ∃ k2, e.1 = S3KV._get_object_key k2 := by
    intro e he
    refine ⟨"t1".toList, ?_⟩
    have he2 : e = (S3KV._get_object_key "t1".toList, exObj) := by
      simpa [tagWorld] using he
    rw [he2]
  exact ⟨h1, h2, h3,
    tag_search_spec.1 "t1".toList [("env", "prod")] tagWorld exObj h1 h2 h3⟩
